import Mathlib

/-!
Shallow embedding of `src/cpp/buttercomp2.cpp` (ButterComp2 stereo compressor,
Airwindows algorithm, FFI wrapper).  `double` arithmetic is modelled over `ℚ`
(exact real-valued arithmetic); the C `rand()` dither draw is modelled as an
explicit input stream of values `d` with `|d| ≤ 1/2` standing for
`rand()/RAND_MAX - 0.5`.  Null pointers are modelled with `Option`.
-/

namespace ButterComp2

/-- Per-channel slice of `ButterComp2State` (one entry of each `double [2]` array). -/
structure ChState where
  control_A_pos : ℚ
  control_A_neg : ℚ
  control_B_pos : ℚ
  control_B_neg : ℚ
  target_pos : ℚ
  target_neg : ℚ
  avg_A : ℚ
  avg_B : ℚ
  dyn_A : ℚ
  dyn_B : ℚ
deriving DecidableEq, Repr

/-- Model of `ButterComp2State` from buttercomp2.cpp lines 10-35: sample rate, the three
normalized parameters, the two per-channel state slices and the dither flip flag. -/
structure State where
  sample_rate : ℚ
  compress : ℚ
  output : ℚ
  dry_wet : ℚ
  chL : ChState
  chR : ChState
  fpflip : Bool
deriving DecidableEq, Repr

/-- The all-zero channel state produced by `calloc` / `buttercomp2_reset`. -/
def zeroCh : ChState :=
  ⟨0, 0, 0, 0, 0, 0, 0, 0, 0, 0⟩

/-- The state written by `buttercomp2_create` (lines 43-51): stores the sample rate
unconditionally, defaults compress=0, output=0.5, dry_wet=1.0, zeroed channel
state, fpflip=1. -/
def initState (sample_rate : ℚ) : State :=
  { sample_rate := sample_rate
    compress := 0
    output := 0.5
    dry_wet := 1
    chL := zeroCh
    chR := zeroCh
    fpflip := true }

/-- Model of `buttercomp2_create` (lines 39-54).  The only failure path in the code is
`calloc` returning null, modelled by the `alloc_ok` flag; the sample rate is
stored without any validation. -/
def buttercomp2_create (alloc_ok : Bool) (sample_rate : ℚ) : Option State :=
  if alloc_ok then some (initState sample_rate) else none

/-- Clamp `std::max(0.0, std::min(1.0, v))` as used by all three setters. -/
def clamp01 (v : ℚ) : ℚ :=
  max 0 (min 1 v)

/-- Model of `buttercomp2_set_compress` (lines 62-66), on a non-null state. -/
def buttercomp2_set_compress (st : State) (v : ℚ) : State :=
  { st with compress := clamp01 v }

/-- Model of `buttercomp2_set_output` (lines 68-72), on a non-null state. -/
def buttercomp2_set_output (st : State) (v : ℚ) : State :=
  { st with output := clamp01 v }

/-- Model of `buttercomp2_set_dry_wet` (lines 74-78), on a non-null state. -/
def buttercomp2_set_dry_wet (st : State) (v : ℚ) : State :=
  { st with dry_wet := clamp01 v }

/-- Model of `buttercomp2_reset` (lines 80-96): zeroes every per-channel field of both
channels; parameters, sample rate and fpflip are untouched. -/
def buttercomp2_reset (st : State) : State :=
  { st with chL := zeroCh, chR := zeroCh }

/-- The per-call derived parameters (lines 104-112). -/
structure BCParams where
  compress_amount : ℚ
  output_gain : ℚ
  wet : ℚ
  dry : ℚ
  release_speed : ℚ
deriving DecidableEq, Repr

/-- Lines 104-112: `compress*14`, `output*2`, `wet = dry_wet`, `dry = 1-wet`,
`release_speed = 0.001 * (1.0 / sample_rate)`. -/
def paramsOf (st : State) : BCParams :=
  { compress_amount := st.compress * 14
    output_gain := st.output * 2
    wet := st.dry_wet
    dry := 1 - st.dry_wet
    release_speed := 0.001 * (1 / st.sample_rate) }

/-- Lines 124-146: input conditioning, butterfly split with one-pole target
smoothing, gain-control derivation, and the sign-dependent smoothed gain
division.  Returns the updated channel state and the post-stage-5 sample. -/
def stage5 (p : BCParams) (cs : ChState) (x : ℚ) : ChState × ℚ :=
  let input1 := x * (1 + p.compress_amount * 0.1)
  let pos_target := |input1|
  let neg_target := -|input1|
  let tp := cs.target_pos * 0.999 + pos_target * 0.001
  let tn := cs.target_neg * 0.999 + neg_target * 0.001
  let control_A := tp * p.compress_amount * 0.1
  let control_B := tn * p.compress_amount * 0.1
  if input1 > 0 then
    let cap := cs.control_A_pos + (control_A - cs.control_A_pos) * p.release_speed
    ({ cs with target_pos := tp, target_neg := tn, control_A_pos := cap },
      input1 / (1 + cap))
  else
    let can := cs.control_A_neg + (control_B - cs.control_A_neg) * p.release_speed
    ({ cs with target_pos := tp, target_neg := tn, control_A_neg := can },
      input1 / (1 + |can|))

/-- Lines 148-164: the second compression stage.  Updates `avg_A` (instant
attack / 0.999-0.001 decay of the absolute post-stage-5 sample) and divides the
sample by `comp_ratio = 1 + compress_amount*0.1` when the absolute sample
exceeds the updated `avg_A * 1.1`.  Returns (new avg_A, new sample). -/
def stage6 (p : BCParams) (avgA s : ℚ) : ℚ × ℚ :=
  let abs_sample := |s|
  let avg := if abs_sample > avgA then abs_sample else avgA * 0.999 + abs_sample * 0.001
  let comp_ratio := 1 + p.compress_amount * 0.1
  (avg, if abs_sample > avg * 1.1 then s / comp_ratio else s)

/-- Lines 170-171: the two sequential hard-clip ifs. -/
def clip2 (t : ℚ) : ℚ :=
  let a := if t > 1 then 1 else t
  if a < -1 then -1 else a

/-- Lines 166-182: output gain, hard clip, dry/wet mix, fpflip toggle and the
alternating dither add (`d` models `rand()/RAND_MAX - 0.5`).  Returns the new
fpflip and the sample written back. -/
def finishSample (p : BCParams) (dry_sample s : ℚ) (fp : Bool) (d : ℚ) : Bool × ℚ :=
  let s1 := s * p.output_gain
  let s2 := clip2 s1
  let out0 := dry_sample * p.dry + s2 * p.wet
  let fp2 := !fp
  (fp2, if fp2 then out0 + d * 1e-10 else out0)

/-- One full channel iteration of the inner loop (lines 118-183). -/
def processSampleCh (p : BCParams) (cs : ChState) (fp : Bool) (x d : ℚ) :
    ChState × Bool × ℚ :=
  let r5 := stage5 p cs x
  let r6 := stage6 p r5.1.avg_A r5.2
  let rf := finishSample p x r6.2 fp d
  ({ r5.1 with avg_A := r6.1 }, rf.1, rf.2)

/-- One frame of the outer loop (lines 114-184): left channel then right
channel, threading fpflip. -/
def processFrame (st : State) (xl xr dl dr : ℚ) : State × ℚ × ℚ :=
  let p := paramsOf st
  let rL := processSampleCh p st.chL st.fpflip xl dl
  let rR := processSampleCh p st.chR rL.2.1 xr dr
  ({ st with chL := rL.1, chR := rR.1, fpflip := rR.2.1 }, rL.2.2, rR.2.2)

/-- Model of `buttercomp2_process_stereo` on a non-null state and buffers: each frame is
a pair (input samples, dither draws) for (left, right). Returns the final state
and the samples written back. -/
def process (st : State) : List ((ℚ × ℚ) × (ℚ × ℚ)) → State × List (ℚ × ℚ)
  | [] => (st, [])
  | f :: rest =>
    let r1 := processFrame st f.1.1 f.1.2 f.2.1 f.2.2
    let r2 := process r1.1 rest
    (r2.1, (r1.2.1, r1.2.2) :: r2.2)

/-- Model of `buttercomp2_process_stereo` (lines 98-185) at the C interface: the null
check of line 102 makes the call a no-op when the state or either buffer
pointer is null. -/
def buttercomp2_process_stereo (st : Option State) (left right : Option (List ℚ))
    (dith : List (ℚ × ℚ)) : Option State × Option (List ℚ) × Option (List ℚ) :=
  match st, left, right with
  | some s, some l, some r =>
    let res := process s ((l.zip r).zip dith)
    (some res.1, some (res.2.map Prod.fst), some (res.2.map Prod.snd))
  | s, l, r => (s, l, r)

/-! Specification-side definitions, for refinement comparisons. -/

/-- Stated from the spec's step-6 wording: a fast-attack/slow-release follower —
snap up instantly when the absolute value exceeds the envelope, otherwise decay
with the 0.999/0.001 one-pole filter. -/
def envelopeFollowerSpec (envelope absValue : ℚ) : ℚ :=
  if absValue > envelope then absValue else envelope * 0.999 + absValue * 0.001

/-- Stated from the spec's step-6 wording: when the instantaneous absolute value
exceeds `envelope * 1.1`, divide the sample by `1 + compressAmount*0.1`. -/
def transientDivideSpec (compressAmount envelope absValue s : ℚ) : ℚ :=
  if absValue > envelope * 1.1 then s / (1 + compressAmount * 0.1) else s

/-- Stated from the claim C4 wording: the per-sample step with the second-stage
`comp_ratio` division removed (lines 161-164 dropped, envelope update kept). -/
def stage6NoDiv (avgA s : ℚ) : ℚ × ℚ :=
  let abs_sample := |s|
  (if abs_sample > avgA then abs_sample else avgA * 0.999 + abs_sample * 0.001, s)

/-- Variant of `processSampleCh` with the second-stage division removed. -/
def processSampleChNoDiv (p : BCParams) (cs : ChState) (fp : Bool) (x d : ℚ) :
    ChState × Bool × ℚ :=
  let r5 := stage5 p cs x
  let r6 := stage6NoDiv r5.1.avg_A r5.2
  let rf := finishSample p x r6.2 fp d
  ({ r5.1 with avg_A := r6.1 }, rf.1, rf.2)

/-- Variant of `processFrame` with the second-stage division removed. -/
def processFrameNoDiv (st : State) (xl xr dl dr : ℚ) : State × ℚ × ℚ :=
  let p := paramsOf st
  let rL := processSampleChNoDiv p st.chL st.fpflip xl dl
  let rR := processSampleChNoDiv p st.chR rL.2.1 xr dr
  ({ st with chL := rL.1, chR := rR.1, fpflip := rR.2.1 }, rL.2.2, rR.2.2)

/-- Variant of `process` with the second-stage division removed. -/
def processNoDiv (st : State) : List ((ℚ × ℚ) × (ℚ × ℚ)) → State × List (ℚ × ℚ)
  | [] => (st, [])
  | f :: rest =>
    let r1 := processFrameNoDiv st f.1.1 f.1.2 f.2.1 f.2.2
    let r2 := processNoDiv r1.1 rest
    (r2.1, (r1.2.1, r1.2.2) :: r2.2)

/-- Sign invariants of one channel's running state: nonnegative positive-side
trackers, nonpositive negative-side trackers, nonnegative envelope.  They hold
for the zeroed state and are preserved by processing when
`release_speed ≤ 1`. -/
def ChInv (cs : ChState) : Prop :=
  0 ≤ cs.target_pos ∧ cs.target_neg ≤ 0 ∧ 0 ≤ cs.control_A_pos ∧
    cs.control_A_neg ≤ 0 ∧ 0 ≤ cs.avg_A

/-- Sign invariants of both channels. -/
def StInv (st : State) : Prop :=
  ChInv st.chL ∧ ChInv st.chR

/-- Reachable state: create at 0.0001 Hz (strictly positive), set compress to 1. -/
def c10reach0 : State :=
  buttercomp2_set_compress (initState (1/10000)) 1

/-- Reachable state: process one frame of 1.0 samples, then set compress to 0. -/
def c10reach1 : State :=
  buttercomp2_set_compress (process c10reach0 [((1, 1), (0, 0))]).1 0

/-- Reachable state: process one more frame of 1.0 samples. -/
def c10reach2 : State :=
  (process c10reach1 [((1, 1), (0, 0))]).1

/-! Claims. -/

/-- C2: the claim says `buttercomp2_create` fails iff the sample rate is
non-positive or allocation fails.  Evaluating the code at the failing inputs:
with allocation succeeding, creation with sample rate `0` and `-1` still
returns a usable instance (only allocation failure yields an absent one). -/
theorem C2_create_ignores_sample_rate :
    (buttercomp2_create true 0).isSome = true ∧
    (buttercomp2_create true (-1)).isSome = true ∧
    buttercomp2_create false 0 = none :=
  ⟨rfl, rfl, rfl⟩

/-- C3: in every per-sample step, the second-stage envelope `avg_A` is updated
as the spec's fast-attack/slow-release follower of the post-stage-5 absolute
sample value, and the sample is divided by `1 + compressAmount*0.1` exactly
when the instantaneous absolute value exceeds the (updated) envelope times 1.1. -/
theorem C3_second_stage_matches_spec (p : BCParams) (cs : ChState) (fp : Bool) (x d : ℚ) :
    processSampleCh p cs fp x d =
      (let r5 := stage5 p cs x
       let env := envelopeFollowerSpec r5.1.avg_A |r5.2|
       let s6 := transientDivideSpec p.compress_amount env |r5.2| r5.2
       let rf := finishSample p x s6 fp d
       ({ r5.1 with avg_A := env }, rf.1, rf.2)) :=
  rfl

/-- C5: processing a stream split into two consecutive buffers yields exactly
the same outputs and the same final state as processing it in one call (the
dither draws being part of the input stream). -/
theorem C5_process_append (st : State) (xs ys : List ((ℚ × ℚ) × (ℚ × ℚ))) :
    process st (xs ++ ys) =
      ((process (process st xs).1 ys).1,
        (process st xs).2 ++ (process (process st xs).1 ys).2) := by
  induction xs generalizing st with
  | nil => simp [process]
  | cons f rest ih => simp [process, ih]

/-- C7: each setter is total and stores a value in `[0,1]`, for every input. -/
theorem C7_setters_clamp (st : State) (v : ℚ) :
    (0 ≤ (buttercomp2_set_compress st v).compress ∧
      (buttercomp2_set_compress st v).compress ≤ 1) ∧
    (0 ≤ (buttercomp2_set_output st v).output ∧
      (buttercomp2_set_output st v).output ≤ 1) ∧
    (0 ≤ (buttercomp2_set_dry_wet st v).dry_wet ∧
      (buttercomp2_set_dry_wet st v).dry_wet ≤ 1) := by
  refine ⟨⟨?_, ?_⟩, ⟨?_, ?_⟩, ⟨?_, ?_⟩⟩ <;>
    simp only [buttercomp2_set_compress, buttercomp2_set_output,
      buttercomp2_set_dry_wet, clamp01] <;>
    first
      | exact le_max_left 0 _
      | exact max_le (by norm_num) (min_le_left 1 v)

/-- C8: reset zeroes both per-channel state slices, leaves the three parameters
and the sample rate unchanged, and is idempotent. -/
theorem C8_reset_spec (st : State) :
    (buttercomp2_reset st).chL = zeroCh ∧ (buttercomp2_reset st).chR = zeroCh ∧
    (buttercomp2_reset st).compress = st.compress ∧
    (buttercomp2_reset st).output = st.output ∧
    (buttercomp2_reset st).dry_wet = st.dry_wet ∧
    (buttercomp2_reset st).sample_rate = st.sample_rate ∧
    buttercomp2_reset (buttercomp2_reset st) = buttercomp2_reset st :=
  ⟨rfl, rfl, rfl, rfl, rfl, rfl, rfl⟩

/-- C9: a null state or a null buffer pointer, or `n = 0` (empty buffers),
makes `buttercomp2_process_stereo` a complete no-op: the state and both
buffers come back unchanged. -/
theorem C9_process_noop :
    (∀ l r d, buttercomp2_process_stereo none l r d = (none, l, r)) ∧
    (∀ s r d, buttercomp2_process_stereo s none r d = (s, none, r)) ∧
    (∀ s l d, buttercomp2_process_stereo s l none d = (s, l, none)) ∧
    (∀ st d, buttercomp2_process_stereo (some st) (some []) (some []) d =
      (some st, some [], some [])) := by
  refine ⟨?_, ?_, ?_, ?_⟩
  · intro l r d; cases l <;> cases r <;> rfl
  · intro s r d; cases s <;> cases r <;> rfl
  · intro s l d; cases s <;> cases l <;> rfl
  · intro st d; rfl

/-! Claim C4: the second-stage division branch is dead. -/

lemma stage5_avg_eq (p : BCParams) (cs : ChState) (x : ℚ) :
    (stage5 p cs x).1.avg_A = cs.avg_A := by
  simp only [stage5]
  split_ifs <;> rfl

lemma stage6_of_nonneg (p : BCParams) (a s : ℚ) (ha : 0 ≤ a) :
    stage6 p a s = stage6NoDiv a s := by
  simp only [stage6, stage6NoDiv]
  have hs := abs_nonneg s
  have hna : ¬ (|s| > (if |s| > a then |s| else a * 0.999 + |s| * 0.001) * 1.1) := by
    split_ifs with h <;> push_neg <;> nlinarith
  rw [if_neg hna]

lemma sampleCh_noDiv (p : BCParams) (cs : ChState) (fp : Bool) (x d : ℚ)
    (h : 0 ≤ cs.avg_A) :
    processSampleCh p cs fp x d = processSampleChNoDiv p cs fp x d := by
  simp only [processSampleCh, processSampleChNoDiv, stage5_avg_eq,
    stage6_of_nonneg p cs.avg_A _ h]

lemma stage6NoDiv_fst_nonneg (a s : ℚ) (ha : 0 ≤ a) : 0 ≤ (stage6NoDiv a s).1 := by
  simp only [stage6NoDiv]
  have hs := abs_nonneg s
  split_ifs with h <;> nlinarith

lemma sampleCh_avg_nonneg (p : BCParams) (cs : ChState) (fp : Bool) (x d : ℚ)
    (h : 0 ≤ cs.avg_A) :
    0 ≤ (processSampleCh p cs fp x d).1.avg_A := by
  rw [sampleCh_noDiv p cs fp x d h]
  show 0 ≤ (stage6NoDiv (stage5 p cs x).1.avg_A (stage5 p cs x).2).1
  rw [stage5_avg_eq]
  exact stage6NoDiv_fst_nonneg _ _ h

lemma frame_noDiv (st : State) (xl xr dl dr : ℚ)
    (hL : 0 ≤ st.chL.avg_A) (hR : 0 ≤ st.chR.avg_A) :
    processFrame st xl xr dl dr = processFrameNoDiv st xl xr dl dr := by
  have e1 : ∀ fp x d, processSampleCh (paramsOf st) st.chL fp x d =
      processSampleChNoDiv (paramsOf st) st.chL fp x d :=
    fun fp x d => sampleCh_noDiv _ _ _ _ _ hL
  have e2 : ∀ fp x d, processSampleCh (paramsOf st) st.chR fp x d =
      processSampleChNoDiv (paramsOf st) st.chR fp x d :=
    fun fp x d => sampleCh_noDiv _ _ _ _ _ hR
  simp only [processFrame, processFrameNoDiv, e1, e2]

lemma frame_avg_nonneg (st : State) (xl xr dl dr : ℚ)
    (hL : 0 ≤ st.chL.avg_A) (hR : 0 ≤ st.chR.avg_A) :
    0 ≤ (processFrame st xl xr dl dr).1.chL.avg_A ∧
      0 ≤ (processFrame st xl xr dl dr).1.chR.avg_A :=
  ⟨sampleCh_avg_nonneg (paramsOf st) st.chL st.fpflip xl dl hL,
    sampleCh_avg_nonneg (paramsOf st) st.chR
      (processSampleCh (paramsOf st) st.chL st.fpflip xl dl).2.1 xr dr hR⟩

/-- C4: whenever both channel envelopes are nonnegative on entry (as in every
state reachable from create or reset), the transient test is false after the
envelope update (first conjunct, at the single-stage level) and `process`
coincides with the variant in which the `comp_ratio` division is removed
(second conjunct): the output never depends on that branch. -/
theorem C4_transient_branch_dead :
    (∀ (p : BCParams) (a s : ℚ), 0 ≤ a → ¬ (|s| > (stage6 p a s).1 * 1.1)) ∧
    (∀ (st : State) (frames : List ((ℚ × ℚ) × (ℚ × ℚ))),
      0 ≤ st.chL.avg_A → 0 ≤ st.chR.avg_A →
      process st frames = processNoDiv st frames) := by
  constructor
  · intro p a s ha
    have hs := abs_nonneg s
    simp only [stage6]
    split_ifs with h <;> push_neg <;> nlinarith
  · intro st frames
    induction frames generalizing st with
    | nil => intro _ _; rfl
    | cons f rest ih =>
      intro hL hR
      have hf := frame_noDiv st f.1.1 f.1.2 f.2.1 f.2.2 hL hR
      have ha := frame_avg_nonneg st f.1.1 f.1.2 f.2.1 f.2.2 hL hR
      simp only [process, processNoDiv, ← hf]
      rw [ih _ ha.1 ha.2]

/-- Witness for C4 at a concrete reachable state and input. -/
theorem C4_transient_branch_dead_witness :
    (0:ℚ) ≤ (initState 44100).chL.avg_A ∧
    process (initState 44100) [((1, 1), (0, 0))] =
      processNoDiv (initState 44100) [((1, 1), (0, 0))] :=
  ⟨by norm_num [initState, zeroCh],
    C4_transient_branch_dead.2 (initState 44100) [((1, 1), (0, 0))]
      (by norm_num [initState, zeroCh]) (by norm_num [initState, zeroCh])⟩

/-! Claim C10: state sign invariants and divisor bounds. -/

lemma stage5_inv (p : BCParams) (cs : ChState) (x : ℚ)
    (hca : 0 ≤ p.compress_amount) (hr0 : 0 ≤ p.release_speed) (hr1 : p.release_speed ≤ 1)
    (h : ChInv cs) :
    0 ≤ (stage5 p cs x).1.target_pos ∧ (stage5 p cs x).1.target_neg ≤ 0 ∧
      0 ≤ (stage5 p cs x).1.control_A_pos ∧ (stage5 p cs x).1.control_A_neg ≤ 0 := by
  obtain ⟨h1, h2, h3, h4, -⟩ := h
  have habs := abs_nonneg (x * (1 + p.compress_amount * 0.1))
  have htp : 0 ≤ cs.target_pos * 0.999 + |x * (1 + p.compress_amount * 0.1)| * 0.001 := by
    nlinarith
  have htn : cs.target_neg * 0.999 + -|x * (1 + p.compress_amount * 0.1)| * 0.001 ≤ 0 := by
    nlinarith
  have hA : 0 ≤ (cs.target_pos * 0.999 + |x * (1 + p.compress_amount * 0.1)| * 0.001) *
      p.compress_amount * 0.1 := by
    have := mul_nonneg (mul_nonneg htp hca) (show (0:ℚ) ≤ 0.1 by norm_num)
    linarith
  have hB : (cs.target_neg * 0.999 + -|x * (1 + p.compress_amount * 0.1)| * 0.001) *
      p.compress_amount * 0.1 ≤ 0 := by
    have hb1 : (cs.target_neg * 0.999 + -|x * (1 + p.compress_amount * 0.1)| * 0.001) *
        p.compress_amount ≤ 0 :=
      mul_nonpos_iff.mpr (Or.inr ⟨htn, hca⟩)
    nlinarith
  simp only [stage5]
  split_ifs with hp
  · refine ⟨?_, ?_, ?_, ?_⟩ <;> dsimp only
    · exact htp
    · exact htn
    · nlinarith [mul_nonneg h3 (show (0:ℚ) ≤ 1 - p.release_speed by linarith),
        mul_nonneg hA hr0]
    · exact h4
  · refine ⟨?_, ?_, ?_, ?_⟩ <;> dsimp only
    · exact htp
    · exact htn
    · exact h3
    · nlinarith [mul_nonpos_iff.mpr (Or.inr ⟨h4, show (0:ℚ) ≤ 1 - p.release_speed by linarith⟩),
        mul_nonpos_iff.mpr (Or.inr ⟨hB, hr0⟩)]

lemma chInv_step (p : BCParams) (cs : ChState) (fp : Bool) (x d : ℚ)
    (hca : 0 ≤ p.compress_amount) (hr0 : 0 ≤ p.release_speed) (hr1 : p.release_speed ≤ 1)
    (h : ChInv cs) : ChInv (processSampleCh p cs fp x d).1 := by
  have h5 := stage5_inv p cs x hca hr0 hr1 h
  have havg : 0 ≤ (stage6 p (stage5 p cs x).1.avg_A (stage5 p cs x).2).1 := by
    rw [stage5_avg_eq, stage6_of_nonneg p cs.avg_A _ h.2.2.2.2]
    exact stage6NoDiv_fst_nonneg _ _ h.2.2.2.2
  exact ⟨h5.1, h5.2.1, h5.2.2.1, h5.2.2.2, havg⟩

lemma stInv_frame (st : State) (xl xr dl dr : ℚ)
    (hca : 0 ≤ st.compress) (hr0 : 0 ≤ (paramsOf st).release_speed)
    (hr1 : (paramsOf st).release_speed ≤ 1) (h : StInv st) :
    StInv (processFrame st xl xr dl dr).1 := by
  have hca14 : 0 ≤ (paramsOf st).compress_amount := mul_nonneg hca (by norm_num)
  exact ⟨chInv_step (paramsOf st) st.chL st.fpflip xl dl hca14 hr0 hr1 h.1,
    chInv_step (paramsOf st) st.chR
      (processSampleCh (paramsOf st) st.chL st.fpflip xl dl).2.1 xr dr hca14 hr0 hr1 h.2⟩

lemma rs_bounds (st : State) (h : 1/1000 ≤ st.sample_rate) :
    0 ≤ (paramsOf st).release_speed ∧ (paramsOf st).release_speed ≤ 1 := by
  have hsr : 0 < st.sample_rate := lt_of_lt_of_le (by norm_num) h
  constructor
  · show 0 ≤ (0.001 : ℚ) * (1 / st.sample_rate)
    positivity
  · show (0.001 : ℚ) * (1 / st.sample_rate) ≤ 1
    rw [mul_one_div, div_le_one hsr]
    norm_num at h ⊢
    linarith

lemma stInv_process (st : State) (frames : List ((ℚ × ℚ) × (ℚ × ℚ)))
    (hsr : 1/1000 ≤ st.sample_rate) (hc : 0 ≤ st.compress) (hinv : StInv st) :
    StInv (process st frames).1 := by
  induction frames generalizing st with
  | nil => exact hinv
  | cons f rest ih =>
    have hb := rs_bounds st hsr
    have h1 := stInv_frame st f.1.1 f.1.2 f.2.1 f.2.2 hc hb.1 hb.2 hinv
    simp only [process]
    exact ih _ hsr hc h1

/-- C10 (amended): when the sample rate is at least 0.001 Hz — equivalently
`release_speed = 0.001/sample_rate ≤ 1` — and `compress` is nonnegative, the
sign invariants of the per-channel state are preserved by `process` from any
state satisfying them (all states reachable from create or reset do), and both
divisors `1 + control_A_pos` and `1 + |control_A_neg|` stay at least 1, so no
division by zero occurs and all state stays well defined. -/
theorem C10_divisors_ge_one (st : State) (frames : List ((ℚ × ℚ) × (ℚ × ℚ)))
    (hsr : 1/1000 ≤ st.sample_rate) (hc : 0 ≤ st.compress) (hinv : StInv st) :
    StInv (process st frames).1 ∧
    1 ≤ 1 + (process st frames).1.chL.control_A_pos ∧
    1 ≤ 1 + |(process st frames).1.chL.control_A_neg| ∧
    1 ≤ 1 + (process st frames).1.chR.control_A_pos ∧
    1 ≤ 1 + |(process st frames).1.chR.control_A_neg| := by
  have main := stInv_process st frames hsr hc hinv
  refine ⟨main, ?_, ?_, ?_, ?_⟩
  · linarith [main.1.2.2.1]
  · linarith [abs_nonneg (process st frames).1.chL.control_A_neg]
  · linarith [main.2.2.2.1]
  · linarith [abs_nonneg (process st frames).1.chR.control_A_neg]

/-- Witness for C10 at a concrete state and input. -/
theorem C10_divisors_ge_one_witness :
    ((1:ℚ)/1000 ≤ (initState 44100).sample_rate ∧ StInv (initState 44100)) ∧
    (StInv (process (initState 44100) [((1, 1), (0, 0))]).1 ∧
      1 ≤ 1 + (process (initState 44100) [((1, 1), (0, 0))]).1.chL.control_A_pos ∧
      1 ≤ 1 + |(process (initState 44100) [((1, 1), (0, 0))]).1.chL.control_A_neg| ∧
      1 ≤ 1 + (process (initState 44100) [((1, 1), (0, 0))]).1.chR.control_A_pos ∧
      1 ≤ 1 + |(process (initState 44100) [((1, 1), (0, 0))]).1.chR.control_A_neg|) :=
  ⟨⟨by norm_num [initState], by norm_num [StInv, ChInv, initState, zeroCh]⟩,
    C10_divisors_ge_one (initState 44100) [((1, 1), (0, 0))] (by norm_num [initState])
      (by norm_num [initState]) (by norm_num [StInv, ChInv, initState, zeroCh])⟩

/-- C10 counterexample to the original claim: at the strictly positive sample
rate 0.0001 Hz, after the reachable sequence create, set_compress 1, process
one frame of 1.0, set_compress 0, process one more frame, the left channel's
`control_A_pos` is negative, so the divisor `1 + control_A_pos` used by the
code has dropped below 1. -/
theorem C10_counterexample :
    0 < c10reach0.sample_rate ∧
    c10reach2.chL.control_A_pos = -(189/625) ∧
    ¬ (1 ≤ 1 + c10reach2.chL.control_A_pos) := by
  have hval : c10reach2.chL.control_A_pos = -(189/625) := by
    norm_num [c10reach2, c10reach1, c10reach0, process, processFrame, processSampleCh,
      stage5, stage6, finishSample, clip2, paramsOf, buttercomp2_set_compress,
      initState, clamp01, zeroCh, abs_of_pos, abs_of_nonneg]
  refine ⟨?_, hval, ?_⟩
  · norm_num [c10reach0, buttercomp2_set_compress, initState]
  · rw [hval]; norm_num

/-! Claims C1 and C6: output bounds and dry bypass. -/

lemma clip2_abs_le (t : ℚ) : |clip2 t| ≤ 1 := by
  simp only [clip2]
  rw [abs_le]
  constructor <;> split_ifs <;> linarith

lemma finish_abs_le (p : BCParams) (x s d : ℚ) (fp : Bool)
    (hw0 : 0 ≤ p.wet) (hw1 : p.wet ≤ 1) (hdry : p.dry = 1 - p.wet)
    (hx : |x| ≤ 1) (hd : |d| ≤ 1/2) :
    |(finishSample p x s fp d).2| ≤ 1 + 5e-11 := by
  have hc := clip2_abs_le (s * p.output_gain)
  have hout0 : |x * p.dry + clip2 (s * p.output_gain) * p.wet| ≤ 1 := by
    rw [hdry]
    have h1 : |x * (1 - p.wet) + clip2 (s * p.output_gain) * p.wet|
        ≤ |x * (1 - p.wet)| + |clip2 (s * p.output_gain) * p.wet| := abs_add _ _
    rw [abs_mul, abs_mul, abs_of_nonneg (show (0:ℚ) ≤ 1 - p.wet by linarith),
      abs_of_nonneg hw0] at h1
    have h2 : |x| * (1 - p.wet) ≤ 1 * (1 - p.wet) :=
      mul_le_mul_of_nonneg_right hx (by linarith)
    have h3 : |clip2 (s * p.output_gain)| * p.wet ≤ 1 * p.wet :=
      mul_le_mul_of_nonneg_right hc hw0
    linarith
  cases fp with
  | true =>
    show |x * p.dry + clip2 (s * p.output_gain) * p.wet| ≤ 1 + 5e-11
    linarith
  | false =>
    show |x * p.dry + clip2 (s * p.output_gain) * p.wet + d * 1e-10| ≤ 1 + 5e-11
    have h4 : |x * p.dry + clip2 (s * p.output_gain) * p.wet + d * 1e-10|
        ≤ |x * p.dry + clip2 (s * p.output_gain) * p.wet| + |d * 1e-10| := abs_add _ _
    have h5 : |d * 1e-10| ≤ 5e-11 := by
      rw [abs_mul, abs_of_nonneg (show (0:ℚ) ≤ 1e-10 by norm_num)]
      linarith
    linarith

lemma frame_out_bound (st : State) (xl xr dl dr : ℚ)
    (hw0 : 0 ≤ st.dry_wet) (hw1 : st.dry_wet ≤ 1)
    (hxl : |xl| ≤ 1) (hxr : |xr| ≤ 1) (hdl : |dl| ≤ 1/2) (hdr : |dr| ≤ 1/2) :
    |(processFrame st xl xr dl dr).2.1| ≤ 1 + 5e-11 ∧
      |(processFrame st xl xr dl dr).2.2| ≤ 1 + 5e-11 :=
  ⟨finish_abs_le (paramsOf st) xl
      (stage6 (paramsOf st) (stage5 (paramsOf st) st.chL xl).1.avg_A
        (stage5 (paramsOf st) st.chL xl).2).2 dl st.fpflip hw0 hw1 rfl hxl hdl,
    finish_abs_le (paramsOf st) xr
      (stage6 (paramsOf st) (stage5 (paramsOf st) st.chR xr).1.avg_A
        (stage5 (paramsOf st) st.chR xr).2).2 dr
      (processSampleCh (paramsOf st) st.chL st.fpflip xl dl).2.1 hw0 hw1 rfl hxr hdr⟩

/-- C1 (amended): for a valid instance (positive sample rate), any `dry_wet`
in `[0,1]`, and input samples that themselves lie in `[-1,1]` (with dither
draws in `[-1/2, 1/2]`), every sample written back lies in `[-1,1]` widened by
the dither bound `5e-11`. -/
theorem C1_output_bounded (st : State) (frames : List ((ℚ × ℚ) × (ℚ × ℚ)))
    (hsr : 0 < st.sample_rate) (hw0 : 0 ≤ st.dry_wet) (hw1 : st.dry_wet ≤ 1)
    (hin : ∀ f ∈ frames, |f.1.1| ≤ 1 ∧ |f.1.2| ≤ 1 ∧ |f.2.1| ≤ 1/2 ∧ |f.2.2| ≤ 1/2) :
    ∀ o ∈ (process st frames).2, |o.1| ≤ 1 + 5e-11 ∧ |o.2| ≤ 1 + 5e-11 := by
  induction frames generalizing st with
  | nil => intro o ho; simp [process] at ho
  | cons f rest ih =>
    intro o ho
    simp only [process, List.mem_cons] at ho
    rcases ho with rfl | h
    · obtain ⟨ha, hb, hcc, hdd⟩ := hin f (List.mem_cons_self f rest)
      exact frame_out_bound st f.1.1 f.1.2 f.2.1 f.2.2 hw0 hw1 ha hb hcc hdd
    · exact ih (processFrame st f.1.1 f.1.2 f.2.1 f.2.2).1 hsr hw0 hw1
        (fun g hg => hin g (List.mem_cons_of_mem f hg)) o h

/-- C1 counterexample to the original claim: a valid instance (sample rate
44100) with `dry_wet = 0`, fed the finite input sample 2.0 on both channels,
writes back 2.0 — outside `[-1,1] + 5e-11` — because the hard clip is applied
only to the wet path while the dry path passes the input through unclipped. -/
theorem C1_counterexample :
    0 < (buttercomp2_set_dry_wet (initState 44100) 0).sample_rate ∧
    (buttercomp2_set_dry_wet (initState 44100) 0).dry_wet = 0 ∧
    (process (buttercomp2_set_dry_wet (initState 44100) 0) [((2, 2), (0, 0))]).2 =
      [(2, 2)] ∧
    ¬ (|(2:ℚ)| ≤ 1 + 5e-11) := by
  refine ⟨by norm_num [buttercomp2_set_dry_wet, initState],
    by norm_num [buttercomp2_set_dry_wet, initState, clamp01], ?_, by norm_num⟩
  norm_num [process, processFrame, processSampleCh, stage5, stage6, finishSample, clip2,
    paramsOf, buttercomp2_set_dry_wet, initState, clamp01, zeroCh]

/-- Witness for C1 at a concrete instance and in-range input. -/
theorem C1_output_bounded_witness :
    (0 < (initState 44100).sample_rate ∧ (0:ℚ) ≤ (initState 44100).dry_wet ∧
      (initState 44100).dry_wet ≤ 1) ∧
    ∀ o ∈ (process (initState 44100) [((1/2, 1/2), (0, 0))]).2,
      |o.1| ≤ 1 + 5e-11 ∧ |o.2| ≤ 1 + 5e-11 :=
  ⟨⟨by norm_num [initState], by norm_num [initState], by norm_num [initState]⟩,
    C1_output_bounded (initState 44100) [((1/2, 1/2), (0, 0))] (by norm_num [initState])
      (by norm_num [initState]) (by norm_num [initState])
      (by intro f hf
          simp only [List.mem_singleton] at hf
          subst hf
          norm_num [abs_le])⟩

lemma finish_dry (p : BCParams) (x s d : ℚ) (fp : Bool)
    (hw : p.wet = 0) (hdry : p.dry = 1) (hd : |d| ≤ 1/2) :
    |(finishSample p x s fp d).2 - x| ≤ 5e-11 := by
  cases fp with
  | true =>
    show |x * p.dry + clip2 (s * p.output_gain) * p.wet - x| ≤ 5e-11
    rw [hw, hdry, mul_one, mul_zero, add_zero, sub_self, abs_zero]
    norm_num
  | false =>
    show |x * p.dry + clip2 (s * p.output_gain) * p.wet + d * 1e-10 - x| ≤ 5e-11
    rw [hw, hdry, mul_one, mul_zero, add_zero, add_sub_cancel_left, abs_mul,
      abs_of_nonneg (show (0:ℚ) ≤ 1e-10 by norm_num)]
    linarith

/-- C6: with `dry_wet = 0`, whatever the other parameters and the starting
state, every sample written back equals the corresponding input sample up to
the dither magnitude `5e-11`. -/
theorem C6_dry_bypass (st : State) (frames : List ((ℚ × ℚ) × (ℚ × ℚ)))
    (h0 : st.dry_wet = 0)
    (hd : ∀ f ∈ frames, |f.2.1| ≤ 1/2 ∧ |f.2.2| ≤ 1/2) :
    List.Forall₂ (fun (o : ℚ × ℚ) (f : (ℚ × ℚ) × ℚ × ℚ) =>
        |o.1 - f.1.1| ≤ 5e-11 ∧ |o.2 - f.1.2| ≤ 5e-11)
      (process st frames).2 frames := by
  induction frames generalizing st with
  | nil => simp [process]
  | cons f rest ih =>
    have hw : (paramsOf st).wet = 0 := h0
    have hdry : (paramsOf st).dry = 1 := by
      show 1 - st.dry_wet = 1
      rw [h0, sub_zero]
    have hdf := hd f (List.mem_cons_self f rest)
    simp only [process]
    refine List.Forall₂.cons ⟨?_, ?_⟩ ?_
    · exact finish_dry (paramsOf st) f.1.1
        (stage6 (paramsOf st) (stage5 (paramsOf st) st.chL f.1.1).1.avg_A
          (stage5 (paramsOf st) st.chL f.1.1).2).2 f.2.1 st.fpflip hw hdry hdf.1
    · exact finish_dry (paramsOf st) f.1.2
        (stage6 (paramsOf st) (stage5 (paramsOf st) st.chR f.1.2).1.avg_A
          (stage5 (paramsOf st) st.chR f.1.2).2).2 f.2.2
        (processSampleCh (paramsOf st) st.chL st.fpflip f.1.1 f.2.1).2.1 hw hdry hdf.2
    · exact ih _ h0 (fun g hg => hd g (List.mem_cons_of_mem f hg))

/-- Witness for C6 at a concrete state (dry_wet set to 0) and input. -/
theorem C6_dry_bypass_witness :
    (buttercomp2_set_dry_wet (initState 44100) 0).dry_wet = 0 ∧
    List.Forall₂ (fun (o : ℚ × ℚ) (f : (ℚ × ℚ) × ℚ × ℚ) =>
        |o.1 - f.1.1| ≤ 5e-11 ∧ |o.2 - f.1.2| ≤ 5e-11)
      (process (buttercomp2_set_dry_wet (initState 44100) 0) [((3, -2), (1/2, 0))]).2
      [((3, -2), (1/2, 0))] :=
  ⟨by norm_num [buttercomp2_set_dry_wet, initState, clamp01],
    C6_dry_bypass _ _ (by norm_num [buttercomp2_set_dry_wet, initState, clamp01])
      (by intro f hf
          simp only [List.mem_singleton] at hf
          subst hf
          norm_num [abs_le])⟩

end ButterComp2
